import Mathlib

/-!
Shallow embedding of `goosey/honk.py` (Untitled Goose Tool "Honk!"): the
orchestration engine that builds the enabled-operation matrix from a
configuration file plus per-provider override flags (`parse_config`,
`_get_section_dict`), routes credentials to providers by audience-substring
matching, constructs the per-provider data-dumper registries (`run`), and
reports elapsed wall-clock time (`main`).

Python dictionaries are modelled as association lists with Python's
insert/update semantics; Python exceptions are modelled with `Except`; a read
of an unbound local variable is a `NameError`.
-/

set_option autoImplicit false

namespace Honk

/-- Python substring test `needle in hay` on strings. -/
def strContains (hay needle : String) : Bool :=
  (List.range (hay.data.length + 1)).any (fun i => needle.data.isPrefixOf (hay.data.drop i))

/-- Lowercase one character, modelling Python `str.lower()` on the ASCII
range that configuration values use. -/
def lowerChar (c : Char) : Char :=
  if 65 ≤ c.toNat ∧ c.toNat ≤ 90 then Char.ofNat (c.toNat + 32) else c

/-- Python `s.lower()` (ASCII). -/
def pyLower (s : String) : String :=
  String.mk (s.data.map lowerChar)

/-- Python dict assignment `d[k] = v`: update in place when the key is present
(keeping its position), otherwise append the new pair. -/
def dictInsert {α : Type} (d : List (String × α)) (k : String) (v : α) :
    List (String × α) :=
  if d.any (fun kv => kv.1 == k) then
    d.map (fun kv => if kv.1 == k then (k, v) else kv)
  else
    d ++ [(k, v)]

/-- One insertion step of `dict(pairs)`. -/
def insStep {α : Type} (acc : List (String × α)) (kv : String × α) :
    List (String × α) :=
  dictInsert acc kv.1 kv.2

/-- Python `dict(pairs)`: insert every pair left to right (duplicate keys keep
the first position, last value). -/
def pythonDict {α : Type} (ps : List (String × α)) : List (String × α) :=
  ps.foldl insStep []

/-- Python dict lookup `d[x]` (`none` models `KeyError` / `x not in d`). -/
def dictLookup {α : Type} (x : String) (d : List (String × α)) : Option α :=
  match d.find? (fun kv => kv.1 == x) with
  | some kv => some kv.2
  | none => none

/-- An event sent to the logger, as far as the claims observe it. -/
inductive LogEvent where
  | warning : String → LogEvent
  | beginHonk : LogEvent
  | elapsedReport : LogEvent
deriving DecidableEq, Repr

/-- The four providers, i.e. the four recognized configuration sections. -/
inductive Provider where
  | azure
  | m365
  | azuread
  | mde
deriving DecidableEq, Repr

/-- Section name of a provider, as in `sections = ['azure', 'm365', 'azuread', 'mde']`. -/
def sectionName : Provider → String
  | .azure => "azure"
  | .m365 => "m365"
  | .azuread => "azuread"
  | .mde => "mde"

/-- The argparse namespace fields that the orchestration core reads. -/
structure Args where
  azure : Bool
  ad : Bool
  m365 : Bool
  mde : Bool
  dry_run : Bool
  debug : Bool
deriving DecidableEq, Repr

/-- The override flag of a provider: `--azure`, `--ad`, `--m365`, `--mde`. -/
def overrideFlag (args : Args) : Provider → Bool
  | .azure => args.azure
  | .azuread => args.ad
  | .m365 => args.m365
  | .mde => args.mde

/-- A parsed configparser object: per section, `config.items(s)` either yields
the (option, value) pairs or raises (a missing section raises `NoSectionError`;
a malformed one may raise at `items` time). -/
abbrev Config := List (String × Except String (List (String × String)))

/-- Embedding of `config.items(s)`. -/
def configItems (config : Config) (s : String) :
    Except String (List (String × String)) :=
  match config.find? (fun kv => kv.1 == s) with
  | some kv => kv.2
  | none => Except.error ("No section: " ++ s)

/-- Embedding of `_get_section_dict` (honk.py lines 141-146):
`dict([(x[0], x[1].lower()=='true') for x in config.items(s)])`; any exception
is caught, a warning is logged, and `{}` is returned. -/
def get_section_dict (config : Config) (s : String) :
    List (String × Bool) × List LogEvent :=
  match configItems config s with
  | Except.ok items =>
      (pythonDict (items.map (fun x => (x.1, pyLower x.2 == "true"))), [])
  | Except.error e => ([], [LogEvent.warning e])

/-- Modelled from the spec: the OperationCatalog of each provider — the
`dump_`-prefixed member names of its dumper class with the prefix stripped,
i.e. `[x.replace('dump_', '') for x in dir(C) if x.startswith('dump_')]`. The
dumper classes (`AzureDataDumper`, `AzureAdDataDumper`, `M365DataDumper`,
`MDEDataDumper`) live outside this module, so the catalog is abstracted as a
per-provider list of operation names. -/
structure Catalogs where
  azure : List String
  m365 : List String
  azuread : List String
  mde : List String

/-- Catalog of one provider. -/
def Catalogs.get (c : Catalogs) : Provider → List String
  | .azure => c.azure
  | .m365 => c.m365
  | .azuread => c.azuread
  | .mde => c.mde

/-- The global `data_calls` after `parse_config`: one Python dict of
operation-name → boolean per section (the code only ever stores `True`). -/
structure DataCalls where
  azure : List (String × Bool)
  m365 : List (String × Bool)
  azuread : List (String × Bool)
  mde : List (String × Bool)
deriving DecidableEq, Repr

/-- Section of the matrix for one provider. -/
def DataCalls.get (dc : DataCalls) : Provider → List (String × Bool)
  | .azure => dc.azure
  | .m365 => dc.m365
  | .azuread => dc.azuread
  | .mde => dc.mde

/-- One iteration of the per-section loop:
`if d[key]: data_calls[section][key] = True`. -/
def enabledStep (acc : List (String × Bool)) (kv : String × Bool) :
    List (String × Bool) :=
  if kv.2 then dictInsert acc kv.1 true else acc

/-- The per-section loop body (honk.py lines 156-160): `data_calls[section] = {}`
then `for key in d: if d[key]: data_calls[section][key] = True` (`d` is a dict,
so iterating its pairs is iterating its keys). -/
def buildEnabled (d : List (String × Bool)) : List (String × Bool) :=
  d.foldl enabledStep []

/-- One override-flag loop (honk.py lines 162-173):
`for item in catalog: data_calls[section][item] = True`. -/
def insertAll (d : List (String × Bool)) (items : List String) :
    List (String × Bool) :=
  items.foldl (fun acc item => dictInsert acc item true) d

/-- Embedding of `parse_config` (honk.py lines 148-177): build the matrix from
the four recognized sections, then for each set override flag add every catalog
operation of that provider. Returns the matrix and the warnings logged. -/
def parse_config (catalog : Catalogs) (config : Config) (args : Args) :
    DataCalls × List LogEvent :=
  let az := get_section_dict config "azure"
  let m3 := get_section_dict config "m365"
  let ad := get_section_dict config "azuread"
  let md := get_section_dict config "mde"
  let dc0 : DataCalls :=
    { azure := buildEnabled az.1, m365 := buildEnabled m3.1,
      azuread := buildEnabled ad.1, mde := buildEnabled md.1 }
  let dc1 := if args.azure then { dc0 with azure := insertAll dc0.azure catalog.azure } else dc0
  let dc2 := if args.ad then { dc1 with azuread := insertAll dc1.azuread catalog.azuread } else dc1
  let dc3 := if args.m365 then { dc2 with m365 := insertAll dc2.m365 catalog.m365 } else dc2
  let dc4 := if args.mde then { dc3 with mde := insertAll dc3.mde catalog.mde } else dc3
  (dc4, az.2 ++ m3.2 ++ ad.2 ++ md.2)

/-- An opaque credential record (one JSON object from the auth file). -/
abbrev Cred := List (String × String)

/-- The auth store read from the auth file: the `mfa` (delegated) and
`app_auth` (application) credential dicts, keyed by audience URL. -/
structure AuthStore where
  mfa : List (String × Cred)
  app_auth : List (String × Cred)

/-- The graph-audience key test:
`'graph.microsoft.com' in key or 'graph.microsoft.us' in key`. -/
def graphKeyMatch (k : String) : Bool :=
  strContains k "graph.microsoft.com" || strContains k "graph.microsoft.us"

/-- One iteration of the first routing loop. -/
def mfaStep (acc : Cred) (kv : String × Cred) : Cred :=
  if graphKeyMatch kv.1 then kv.2 else acc

/-- First routing loop (honk.py lines 105-107): `msft_graph_auth = {}`, then
each `mfa` key matching either graph hostname overwrites it. -/
def routeMfa (mfa : List (String × Cred)) : Cred :=
  mfa.foldl mfaStep []

/-- State of the three locals written by the application-credential loop.
`msft_graph_app_auth` is initialized to `{}` (line 103); `mgmt_app_auth` and
`msft_security_center_auth` are never initialized, so `none` models the name
being unbound. -/
structure AppRouting where
  msft_graph_app_auth : Cred
  mgmt_app_auth : Option Cred
  msft_security_center_auth : Option Cred
deriving DecidableEq, Repr

/-- One iteration of the second routing loop: the three independent substring
tests of honk.py lines 110-115, each assignment overwriting the local. -/
def appStep (acc : AppRouting) (kv : String × Cred) : AppRouting :=
  { msft_graph_app_auth :=
      if graphKeyMatch kv.1 then kv.2 else acc.msft_graph_app_auth
    mgmt_app_auth :=
      if strContains kv.1 "management.azure.com" then some kv.2
      else acc.mgmt_app_auth
    msft_security_center_auth :=
      if strContains kv.1 "api.securitycenter.microsoft.com" then some kv.2
      else acc.msft_security_center_auth }

/-- Second routing loop (honk.py lines 109-115): one pass over `app_auth`. -/
def routeApp (app : List (String × Cred)) : AppRouting :=
  app.foldl appStep
    { msft_graph_app_auth := [], mgmt_app_auth := none,
      msft_security_center_auth := none }

/-- Modelled from the spec: `check_token` (goosey.auth, not under src/) runs a
validity/refresh check on the identity-graph delegated record and passes the
record through. -/
def check_token (c : Cred) : Cred := c

/-- A constructed dumper object: the plain `DataDumper` (`maindumper`, also the
dry-run stand-in) or one of the four real provider dumpers, each holding the
credentials it was constructed with. -/
inductive Registry where
  | datadumper : Cred → Cred → Registry
  | m365DataDumper : Cred → Cred → Registry
  | azureAdDataDumper : Cred → Cred → Registry
  | azureDataDumper : Cred → Registry
  | mdeDataDumper : Cred → Cred → Registry
deriving DecidableEq, Repr

/-- Whether a registry is one of the four real provider dumpers. -/
def isRealRegistry : Registry → Bool
  | .datadumper _ _ => false
  | _ => true

/-- Modelled from the spec: the network calls one unit of work of a registry
performs. Real provider dumpers call their provider's API; the plain
`DataDumper` stand-in used for every provider in dry-run is a no-op touching
no network. -/
def unitNetworkCalls : Registry → String → List String
  | .datadumper _ _, _ => []
  | .m365DataDumper _ _, op => ["m365:" ++ op]
  | .azureAdDataDumper _ _, op => ["azuread:" ++ op]
  | .azureDataDumper _, op => ["azure:" ++ op]
  | .mdeDataDumper _ _, op => ["mde:" ++ op]

/-- A Python runtime error: `NameError` for a read of an unbound local,
`opError` for an unrecovered error inside a unit of work. -/
inductive PyError where
  | nameError : String → PyError
  | opError : String → PyError
deriving DecidableEq, Repr

/-- The four dumper locals of `run` after construction. -/
structure Registries where
  m365dumper : Registry
  azureaddumper : Registry
  azure_dumper : Registry
  mdedumper : Registry
deriving DecidableEq, Repr

/-- Dumper construction (honk.py lines 119-129): in dry-run all four names are
bound to the single `maindumper`; otherwise the four real dumpers are
constructed in source order, where line 128 reads `mgmt_app_auth` and line 129
reads `msft_security_center_auth` — a read of an unbound name raises
`NameError` (`UnboundLocalError`). -/
def setupRegistries (args : Args) (graph graphApp : Cred) (r : AppRouting) :
    Except PyError Registries :=
  let maindumper := Registry.datadumper graph graphApp
  if args.dry_run then
    Except.ok
      { m365dumper := maindumper, azureaddumper := maindumper,
        azure_dumper := maindumper, mdedumper := maindumper }
  else
    let m365d := Registry.m365DataDumper graph graphApp
    let add := Registry.azureAdDataDumper graph graphApp
    match r.mgmt_app_auth with
    | none => Except.error (PyError.nameError "mgmt_app_auth")
    | some mgmt =>
      match r.msft_security_center_auth with
      | none => Except.error (PyError.nameError "msft_security_center_auth")
      | some sec =>
        Except.ok
          { m365dumper := m365d, azureaddumper := add,
            azure_dumper := Registry.azureDataDumper mgmt,
            mdedumper := Registry.mdeDataDumper graph sec }

/-- The credential-routing and registry-setup phase of `run`
(honk.py lines 102-129): route both credential kinds, pass the delegated graph
record through `check_token`, and construct the dumpers. -/
def runSetup (args : Args) (auth : AuthStore) : Except PyError Registries :=
  let g := check_token (routeMfa auth.mfa)
  let a := routeApp auth.app_auth
  setupRegistries args g a.msft_graph_app_auth a

/-- Embedding of `asyncio.gather(*tasks)` without `return_exceptions`: if any
task raises, the (first) exception propagates to the awaiter; modelled over the
tasks' completion results in list order. -/
def gatherOutcome (results : List (Except PyError Unit)) : Except PyError Unit :=
  results.foldr
    (fun r acc =>
      match r with
      | Except.error e => Except.error e
      | Except.ok _ => acc)
    (Except.ok ())

/-- The tail of `main` (honk.py lines 215-219): log "Goosey beginning to honk",
run the async loop, and only when it returns normally log the elapsed-time
report; an exception from `asyncio.run` propagates past both timing lines.
Returns the logs emitted and whether the run is surfaced as successful. -/
def mainTail (runOutcome : Except PyError Unit) : List LogEvent × Bool :=
  match runOutcome with
  | Except.ok _ => ([LogEvent.beginHonk, LogEvent.elapsedReport], true)
  | Except.error _ => ([LogEvent.beginHonk], false)

/-- Keys of a dict. -/
def keys {α : Type} (d : List (String × α)) : List String :=
  d.map Prod.fst

/-- Map a function over the values of a dict. -/
def mapVal {α β : Type} (f : α → β) (d : List (String × α)) : List (String × β) :=
  d.map (fun kv => (kv.1, f kv.2))

/-- A sample catalog: the azure dumper declares one operation. -/
def exCatalog : Catalogs :=
  { azure := ["activity_log"], m365 := [], azuread := [], mde := [] }

/-- A sample configuration whose azure section enables an operation name that
no dumper class declares. -/
def exConfig : Config :=
  [("azure", Except.ok [("bogus", "true"), ("off_op", "false")])]

/-- Arguments with only the `--azure` override flag set. -/
def exArgsAzure : Args :=
  { azure := true, ad := false, m365 := false, mde := false,
    dry_run := false, debug := false }

/-- Arguments with no override flags and no dry-run. -/
def exArgsNone : Args :=
  { azure := false, ad := false, m365 := false, mde := false,
    dry_run := false, debug := false }

/-- Arguments with only `--dry-run` set. -/
def exArgsDry : Args :=
  { azure := false, ad := false, m365 := false, mde := false,
    dry_run := true, debug := false }

/-- A sample configuration for the no-override-flag claim. -/
def exConfigPlain : Config :=
  [("azure", Except.ok [("users", "True"), ("groups", "false")])]

/-- The raw azure items of `exConfigPlain`. -/
def exItemsPlain : List (String × String) :=
  [("users", "True"), ("groups", "false")]

/-- An auth store holding only identity-graph credentials: no key contains
`management.azure.com` or `api.securitycenter.microsoft.com`. -/
def exAuthGraphOnly : AuthStore :=
  { mfa := [("https://graph.microsoft.com/v1.0", [("token", "t1")])],
    app_auth := [("https://graph.microsoft.com/v1.0", [("token", "t2")])] }

/-- A sample government-cloud credential record. -/
def exGovCred : Cred := [("token", "gov")]

/-! ## Dictionary lemmas -/

theorem mem_dictInsert {α : Type} {d : List (String × α)} {k : String} {v : α}
    {kv : String × α} (h : kv ∈ dictInsert d k v) : kv = (k, v) ∨ kv ∈ d := by
  unfold dictInsert at h
  by_cases hmem : d.any (fun kv => kv.1 == k) = true
  · rw [if_pos hmem] at h
    rcases List.mem_map.mp h with ⟨q, hq, heq⟩
    by_cases hk : q.1 == k
    · rw [if_pos hk] at heq
      exact Or.inl heq.symm
    · rw [if_neg hk] at heq
      exact Or.inr (heq ▸ hq)
  · rw [if_neg hmem] at h
    rcases List.mem_append.mp h with h1 | h1
    · exact Or.inr h1
    · exact Or.inl (List.mem_singleton.mp h1)

theorem mem_dictInsert_true {d : List (String × Bool)} {k x : String} :
    (x, true) ∈ dictInsert d k true ↔ x = k ∨ (x, true) ∈ d := by
  constructor
  · intro h
    rcases mem_dictInsert h with h1 | h1
    · exact Or.inl (congrArg Prod.fst h1)
    · exact Or.inr h1
  · intro h
    unfold dictInsert
    by_cases hmem : d.any (fun kv => kv.1 == k) = true
    · rw [if_pos hmem]
      rcases h with h | hm
      · obtain ⟨q, hq, hk⟩ := List.any_eq_true.mp hmem
        refine List.mem_map.mpr ⟨q, hq, ?_⟩
        rw [if_pos hk, h]
      · refine List.mem_map.mpr ⟨(x, true), hm, ?_⟩
        show (if x == k then ((k : String), true) else (x, true)) = (x, true)
        by_cases hk : x == k
        · have h1 : x = k := eq_of_beq hk
          simp [h1]
        · simp [hk]
    · rw [if_neg hmem]
      rcases h with h | hm
      · exact List.mem_append.mpr (Or.inr (by rw [h]; exact List.mem_singleton.mpr rfl))
      · exact List.mem_append.mpr (Or.inl hm)

theorem keys_dictInsert_of_any {α : Type} {d : List (String × α)} {k : String}
    {v : α} (h : d.any (fun kv => kv.1 == k) = true) :
    keys (dictInsert d k v) = keys d := by
  unfold dictInsert keys
  rw [if_pos h, List.map_map]
  refine List.map_congr_left ?_
  intro kv _
  show (if kv.1 == k then ((k : String), v) else kv).1 = kv.1
  by_cases hk : kv.1 == k
  · rw [if_pos hk]
    exact (eq_of_beq hk).symm
  · rw [if_neg hk]

theorem not_mem_keys_of_any_false {α : Type} {d : List (String × α)} {k : String}
    (h : ¬ d.any (fun kv => kv.1 == k) = true) : k ∉ keys d := by
  intro hk
  apply h
  rcases List.mem_map.mp hk with ⟨q, hq, hq1⟩
  exact List.any_eq_true.mpr ⟨q, hq, beq_of_eq hq1⟩

theorem nodup_keys_dictInsert {α : Type} {d : List (String × α)} {k : String}
    {v : α} (h : (keys d).Nodup) : (keys (dictInsert d k v)).Nodup := by
  by_cases hmem : d.any (fun kv => kv.1 == k) = true
  · rw [keys_dictInsert_of_any hmem]
    exact h
  · unfold dictInsert keys
    rw [if_neg hmem, List.map_append]
    have hk : k ∉ keys d := not_mem_keys_of_any_false hmem
    simp only [List.map_cons, List.map_nil]
    rw [List.nodup_append]
    refine ⟨h, List.nodup_singleton k, ?_⟩
    intro a ha hb
    rcases List.mem_singleton.mp hb with rfl
    exact hk ha

theorem nodup_keys_pythonDict_fold {α : Type} (ps : List (String × α)) :
    ∀ acc : List (String × α), (keys acc).Nodup →
      (keys (ps.foldl insStep acc)).Nodup := by
  induction ps with
  | nil => intro acc h; exact h
  | cons kv t ih =>
    intro acc h
    rw [List.foldl_cons]
    exact ih _ (nodup_keys_dictInsert h)

theorem nodup_keys_pythonDict {α : Type} (ps : List (String × α)) :
    (keys (pythonDict ps)).Nodup :=
  nodup_keys_pythonDict_fold ps [] List.nodup_nil

theorem mem_of_dictLookup {α : Type} {x : String} {v : α} {d : List (String × α)}
    (h : dictLookup x d = some v) : (x, v) ∈ d := by
  induction d with
  | nil => exact absurd h (by simp [dictLookup])
  | cons kv t ih =>
    unfold dictLookup at h
    rw [List.find?_cons] at h
    by_cases hk : kv.1 == x
    · simp only [hk] at h
      have h1 : kv.2 = v := Option.some.inj h
      have h2 : kv.1 = x := eq_of_beq hk
      rw [← h1, ← h2]
      exact List.mem_cons_self _ _
    · rw [Bool.not_eq_true] at hk
      simp only [hk] at h
      exact List.mem_cons_of_mem _ (ih h)

theorem dictLookup_of_mem_nodup {α : Type} {x : String} {v : α}
    {d : List (String × α)} (hnd : (keys d).Nodup) (h : (x, v) ∈ d) :
    dictLookup x d = some v := by
  induction d with
  | nil => exact absurd h (List.not_mem_nil _)
  | cons kv t ih =>
    have hnd2 : kv.1 ∉ keys t ∧ (keys t).Nodup := by
      unfold keys at hnd
      rw [List.map_cons, List.nodup_cons] at hnd
      exact hnd
    unfold dictLookup
    rw [List.find?_cons]
    rcases List.mem_cons.mp h with h1 | h1
    · rw [← h1]
      simp
    · by_cases hk : kv.1 == x
      · exfalso
        apply hnd2.1
        rw [eq_of_beq hk]
        exact List.mem_map.mpr ⟨(x, v), h1, rfl⟩
      · rw [Bool.not_eq_true] at hk
        simp only [hk]
        exact ih hnd2.2 h1

/-! ## Value-map lemmas -/

theorem keys_mapVal {α β : Type} (f : α → β) (d : List (String × α)) :
    keys (mapVal f d) = keys d := by
  unfold keys mapVal
  rw [List.map_map]
  rfl

theorem dictInsert_mapVal {α β : Type} (f : α → β) (d : List (String × α))
    (k : String) (v : α) :
    dictInsert (mapVal f d) k (f v) = mapVal f (dictInsert d k v) := by
  unfold dictInsert
  have hany : (mapVal f d).any (fun kv => kv.1 == k) = d.any (fun kv => kv.1 == k) := by
    unfold mapVal
    induction d with
    | nil => rfl
    | cons q t ih =>
      rw [List.map_cons, List.any_cons, List.any_cons, ih]
  rw [hany]
  by_cases hmem : d.any (fun kv => kv.1 == k) = true
  · rw [if_pos hmem, if_pos hmem]
    unfold mapVal
    rw [List.map_map, List.map_map]
    refine List.map_congr_left ?_
    intro kv _
    simp only [Function.comp]
    by_cases hk : kv.1 == k
    · simp [hk]
    · simp [hk]
  · rw [if_neg hmem, if_neg hmem]
    unfold mapVal
    rw [List.map_append]
    rfl

theorem pythonDict_fold_mapVal {α β : Type} (f : α → β) (ps : List (String × α)) :
    ∀ acc : List (String × α),
      (mapVal f ps).foldl insStep (mapVal f acc)
        = mapVal f (ps.foldl insStep acc) := by
  induction ps with
  | nil => intro acc; rfl
  | cons kv t ih =>
    intro acc
    show (mapVal f t).foldl insStep (insStep (mapVal f acc) (kv.1, f kv.2))
        = mapVal f ((kv :: t).foldl insStep acc)
    rw [List.foldl_cons]
    have hstep : insStep (mapVal f acc) (kv.1, f kv.2) = mapVal f (insStep acc kv) := by
      unfold insStep
      exact dictInsert_mapVal f acc kv.1 kv.2
    rw [hstep]
    exact ih (insStep acc kv)

theorem pythonDict_mapVal {α β : Type} (f : α → β) (ps : List (String × α)) :
    pythonDict (mapVal f ps) = mapVal f (pythonDict ps) :=
  pythonDict_fold_mapVal f ps []

theorem dictLookup_mapVal {α β : Type} (f : α → β) (x : String)
    (d : List (String × α)) :
    dictLookup x (mapVal f d) = (dictLookup x d).map f := by
  unfold dictLookup mapVal
  rw [List.find?_map]
  have hpg : ((fun kv : String × β => kv.1 == x) ∘ (fun kv : String × α => (kv.1, f kv.2)))
      = (fun kv : String × α => kv.1 == x) := rfl
  rw [hpg]
  cases d.find? (fun kv : String × α => kv.1 == x) with
  | none => rfl
  | some q => rfl

/-! ## Enabled-set lemmas -/

theorem mem_buildEnabled_fold (d : List (String × Bool)) :
    ∀ (acc : List (String × Bool)) (x : String),
      ((x, true) ∈ d.foldl enabledStep acc ↔ (x, true) ∈ d ∨ (x, true) ∈ acc) := by
  induction d with
  | nil =>
    intro acc x
    simp
  | cons kv t ih =>
    intro acc x
    obtain ⟨k, b⟩ := kv
    rw [List.foldl_cons, ih]
    cases b
    · rw [show enabledStep acc (k, false) = acc from rfl]
      simp only [List.mem_cons, Prod.mk.injEq]
      tauto
    · rw [show enabledStep acc (k, true) = dictInsert acc k true from rfl,
        mem_dictInsert_true]
      simp only [List.mem_cons, Prod.mk.injEq]
      tauto

theorem mem_buildEnabled {d : List (String × Bool)} {x : String} :
    (x, true) ∈ buildEnabled d ↔ (x, true) ∈ d := by
  unfold buildEnabled
  rw [mem_buildEnabled_fold]
  simp

theorem mem_insertAll (items : List String) :
    ∀ (d : List (String × Bool)) (x : String),
      ((x, true) ∈ insertAll d items ↔ x ∈ items ∨ (x, true) ∈ d) := by
  induction items with
  | nil =>
    intro d x
    simp [insertAll]
  | cons i t ih =>
    intro d x
    unfold insertAll
    rw [List.foldl_cons]
    have h1 := ih (dictInsert d i true) x
    unfold insertAll at h1
    rw [h1, mem_dictInsert_true]
    simp only [List.mem_cons]
    tauto

theorem all_true_fold (d : List (String × Bool)) :
    ∀ acc : List (String × Bool), (∀ kv ∈ acc, kv.2 = true) →
      ∀ kv ∈ d.foldl enabledStep acc, kv.2 = true := by
  induction d with
  | nil =>
    intro acc hacc
    exact hacc
  | cons q t ih =>
    intro acc hacc
    rw [List.foldl_cons]
    refine ih _ ?_
    intro kv hkv
    unfold enabledStep at hkv
    by_cases hq : q.2 = true
    · rw [if_pos hq] at hkv
      rcases mem_dictInsert hkv with h1 | h1
      · rw [h1]
      · exact hacc kv h1
    · rw [if_neg hq] at hkv
      exact hacc kv hkv

theorem all_true_buildEnabled (d : List (String × Bool)) :
    ∀ kv ∈ buildEnabled d, kv.2 = true :=
  all_true_fold d [] (by intro kv h; exact absurd h (List.not_mem_nil _))

theorem all_true_insertAll (items : List String) :
    ∀ d : List (String × Bool), (∀ kv ∈ d, kv.2 = true) →
      ∀ kv ∈ insertAll d items, kv.2 = true := by
  induction items with
  | nil =>
    intro d hd
    exact hd
  | cons i t ih =>
    intro d hd
    unfold insertAll
    rw [List.foldl_cons]
    refine ih _ ?_
    intro kv hkv
    rcases mem_dictInsert hkv with h1 | h1
    · rw [h1]
    · exact hd kv h1

/-! ## The matrix, per provider -/

theorem parse_config_get (catalog : Catalogs) (config : Config) (args : Args)
    (p : Provider) :
    (parse_config catalog config args).1.get p =
      (if overrideFlag args p
       then insertAll (buildEnabled (get_section_dict config (sectionName p)).1)
         (catalog.get p)
       else buildEnabled (get_section_dict config (sectionName p)).1) := by
  obtain ⟨raz, rad, rm3, rmd, rdry, rdbg⟩ := args
  cases p <;> cases raz <;> cases rad <;> cases rm3 <;> cases rmd <;> rfl

theorem parse_config_logs (catalog : Catalogs) (config : Config) (args : Args) :
    (parse_config catalog config args).2 =
      (get_section_dict config "azure").2 ++ (get_section_dict config "m365").2
        ++ (get_section_dict config "azuread").2
        ++ (get_section_dict config "mde").2 := by
  obtain ⟨raz, rad, rm3, rmd, rdry, rdbg⟩ := args
  cases raz <;> cases rad <;> cases rm3 <;> cases rmd <;> rfl

/-! ## Overwrite-scan lemmas -/

theorem foldl_overwrite {α β : Type} (p : α → Bool) (g : α → β) (l : List α) :
    ∀ init : β,
      l.foldl (fun acc x => if p x then g x else acc) init
        = (((l.filter p).getLast?).map g).getD init := by
  induction l with
  | nil =>
    intro init
    rfl
  | cons a t ih =>
    intro init
    rw [List.foldl_cons, List.filter_cons]
    by_cases hp : p a
    · rw [if_pos hp, if_pos hp, ih]
      cases hf : t.filter p with
      | nil => rfl
      | cons b u =>
        rw [List.getLast?_cons_cons]
        cases hbu : (b :: u).getLast? with
        | none => exact absurd hbu (by simp)
        | some y => rfl
    · rw [if_neg hp, if_neg hp, ih]

theorem routeApp_fold (app : List (String × Cred)) :
    ∀ acc : AppRouting,
      app.foldl appStep acc =
        { msft_graph_app_auth :=
            app.foldl (fun a kv => if graphKeyMatch kv.1 then kv.2 else a)
              acc.msft_graph_app_auth
          mgmt_app_auth :=
            app.foldl (fun a kv =>
                if strContains kv.1 "management.azure.com" then some kv.2 else a)
              acc.mgmt_app_auth
          msft_security_center_auth :=
            app.foldl (fun a kv =>
                if strContains kv.1 "api.securitycenter.microsoft.com" then some kv.2
                else a)
              acc.msft_security_center_auth } := by
  induction app with
  | nil =>
    intro acc
    rfl
  | cons kv t ih =>
    intro acc
    rw [List.foldl_cons, List.foldl_cons, List.foldl_cons, List.foldl_cons, ih]
    rfl

theorem gatherOutcome_error_of_mem (results : List (Except PyError Unit))
    (e : PyError) (h : Except.error e ∈ results) :
    ∃ e2 : PyError, gatherOutcome results = Except.error e2 := by
  induction results with
  | nil => exact absurd h (List.not_mem_nil _)
  | cons r t ih =>
    unfold gatherOutcome
    rw [List.foldr_cons]
    cases r with
    | error e1 => exact ⟨e1, rfl⟩
    | ok u =>
      rcases List.mem_cons.mp h with h1 | h1
      · exact absurd h1 (by simp)
      · exact ih h1

theorem routeMfa_eq (mfa : List (String × Cred)) :
    routeMfa mfa
      = mfa.foldl (fun acc kv => if graphKeyMatch kv.1 then kv.2 else acc) [] := rfl

theorem routeApp_graph (app : List (String × Cred)) :
    (routeApp app).msft_graph_app_auth
      = app.foldl (fun a kv => if graphKeyMatch kv.1 then kv.2 else a) [] := by
  unfold routeApp
  rw [routeApp_fold]

theorem routeApp_mgmt (app : List (String × Cred)) :
    (routeApp app).mgmt_app_auth
      = app.foldl (fun a kv =>
          if strContains kv.1 "management.azure.com" then some kv.2 else a) none := by
  unfold routeApp
  rw [routeApp_fold]

theorem routeApp_sec_center (app : List (String × Cred)) :
    (routeApp app).msft_security_center_auth
      = app.foldl (fun a kv =>
          if strContains kv.1 "api.securitycenter.microsoft.com" then some kv.2
          else a) none := by
  unfold routeApp
  rw [routeApp_fold]

theorem map_some_getD_none {α β : Type} (o : Option α) (f : α → β) :
    (o.map (fun a => some (f a))).getD none = o.map f := by
  cases o <;> rfl

/-! ## The claims -/

/-- C1 counterexample: with the `--azure` override flag set and a
configuration whose azure section enables "bogus" — a name the azure
OperationCatalog does not declare — the built enabled-set still contains
"bogus", so it is not equal to the full catalog. -/
theorem C1_counterexample :
    ("bogus", true) ∈ (parse_config exCatalog exConfig exArgsAzure).1.get Provider.azure ∧
    "bogus" ∉ exCatalog.get Provider.azure := by
  constructor
  · have h : (parse_config exCatalog exConfig exArgsAzure).1.get Provider.azure
        = [("bogus", true), ("activity_log", true)] := rfl
    rw [h]
    exact List.mem_cons_self _ _
  · decide

/-- C1 amended: if provider P's override flag is set, the enabled-set built
for P is the union of P's full OperationCatalog and the configuration-derived
truthy entries for P — the flag adds every catalog operation but does not
remove operation names that only the configuration file enabled. -/
theorem C1_override_union (catalog : Catalogs) (config : Config) (args : Args)
    (p : Provider) (h : overrideFlag args p = true) (x : String) :
    ((x, true) ∈ (parse_config catalog config args).1.get p ↔
      x ∈ catalog.get p ∨
        (x, true) ∈ buildEnabled (get_section_dict config (sectionName p)).1) := by
  rw [parse_config_get, if_pos h]
  exact mem_insertAll (catalog.get p) _ x

/-- C1 witness: the amended statement at a concrete catalog, configuration,
and flag set. -/
theorem C1_override_union_witness :
    (("activity_log", true) ∈ (parse_config exCatalog exConfig exArgsAzure).1.get Provider.azure ↔
      "activity_log" ∈ exCatalog.get Provider.azure ∨
        ("activity_log", true) ∈
          buildEnabled (get_section_dict exConfig (sectionName Provider.azure)).1) :=
  C1_override_union exCatalog exConfig exArgsAzure Provider.azure rfl "activity_log"

/-- C2 (documents the code bug): with dry-run off and an
application-credential store whose keys contain neither
"management.azure.com" nor "api.securitycenter.microsoft.com", the routing
loops complete and merely leave the two records absent, but `run` then raises
`NameError` (`UnboundLocalError`) while constructing `AzureDataDumper` —
aborting before any unit of work exists, instead of surfacing the miss later
as that unit of work's own authorization failure. -/
theorem C2_routing_miss_crashes :
    (routeApp exAuthGraphOnly.app_auth).mgmt_app_auth = none ∧
    (routeApp exAuthGraphOnly.app_auth).msft_security_center_auth = none ∧
    runSetup exArgsNone exAuthGraphOnly
      = Except.error (PyError.nameError "mgmt_app_auth") :=
  ⟨rfl, rfl, rfl⟩

/-- C3 counterexample: a run whose single unit of work fails is surfaced as
unsuccessful, but the elapsed-time report does not fire — the exception from
`asyncio.run` propagates past the timing lines of `main`. -/
theorem C3_counterexample :
    (mainTail (gatherOutcome [Except.error (PyError.opError "task failed")])).2 = false ∧
    LogEvent.elapsedReport ∉
      (mainTail (gatherOutcome [Except.error (PyError.opError "task failed")])).1 := by
  refine ⟨rfl, ?_⟩
  intro hm
  exact absurd (List.mem_singleton.mp hm) (by decide)

/-- C3 amended: if any unit of work fails with an unrecovered error, the run
is surfaced as unsuccessful AND the elapsed-time report does not fire; the
report fires only when every unit of work completes without error. -/
theorem C3_failure_no_elapsed_report (results : List (Except PyError Unit))
    (e : PyError) (h : Except.error e ∈ results) :
    (mainTail (gatherOutcome results)).2 = false ∧
    LogEvent.elapsedReport ∉ (mainTail (gatherOutcome results)).1 := by
  obtain ⟨e2, h2⟩ := gatherOutcome_error_of_mem results e h
  rw [h2]
  refine ⟨rfl, ?_⟩
  intro hm
  exact absurd (List.mem_singleton.mp hm) (by decide)

/-- C3 witness: the amended statement at a concrete task-result list. -/
theorem C3_failure_no_elapsed_report_witness :
    (mainTail (gatherOutcome [Except.ok (), Except.error (PyError.opError "boom")])).2 = false ∧
    LogEvent.elapsedReport ∉
      (mainTail (gatherOutcome [Except.ok (), Except.error (PyError.opError "boom")])).1 :=
  C3_failure_no_elapsed_report _ (PyError.opError "boom")
    (List.mem_cons_of_mem _ (List.mem_cons_self _ _))

/-- C4: with no override flags set, the enabled-set built for provider P
contains exactly those operation names of P's section whose string value
case-insensitively equals "true" (by lowercasing), and the built matrix
retains no explicit false entries. -/
theorem C4_truthy_exactly (catalog : Catalogs) (config : Config) (args : Args)
    (p : Provider) (items : List (String × String))
    (h1 : args.azure = false) (h2 : args.ad = false) (h3 : args.m365 = false)
    (h4 : args.mde = false)
    (hs : configItems config (sectionName p) = Except.ok items) :
    (∀ x : String,
      ((x, true) ∈ (parse_config catalog config args).1.get p ↔
        ∃ v : String, dictLookup x (pythonDict items) = some v ∧ pyLower v = "true")) ∧
    (∀ kv ∈ (parse_config catalog config args).1.get p, kv.2 = true) := by
  have hf : overrideFlag args p = false := by
    cases p
    · exact h1
    · exact h3
    · exact h2
    · exact h4
  have hsec : (get_section_dict config (sectionName p)).1
      = pythonDict (mapVal (fun v => pyLower v == "true") items) := by
    unfold get_section_dict
    rw [hs]
    rfl
  rw [parse_config_get, if_neg (by simp [hf]), hsec]
  constructor
  · intro x
    rw [mem_buildEnabled, pythonDict_mapVal]
    constructor
    · intro hm
      have hnd : (keys (mapVal (fun v => pyLower v == "true") (pythonDict items))).Nodup := by
        rw [keys_mapVal]
        exact nodup_keys_pythonDict items
      have hl := dictLookup_of_mem_nodup hnd hm
      rw [dictLookup_mapVal] at hl
      cases hv : dictLookup x (pythonDict items) with
      | none =>
        rw [hv] at hl
        exact absurd hl (by simp)
      | some v =>
        rw [hv] at hl
        have hb : (pyLower v == "true") = true := Option.some.inj hl
        exact ⟨v, rfl, eq_of_beq hb⟩
    · rintro ⟨v, hv, hlow⟩
      have hm : (x, v) ∈ pythonDict items := mem_of_dictLookup hv
      have hb : (pyLower v == "true") = true := beq_iff_eq.mpr hlow
      have hmm := List.mem_map_of_mem
        (fun kv : String × String => (kv.1, pyLower kv.2 == "true")) hm
      have hmm2 : (x, pyLower v == "true") ∈
          List.map (fun kv : String × String => (kv.1, pyLower kv.2 == "true"))
            (pythonDict items) := hmm
      rw [hb] at hmm2
      exact hmm2
  · exact all_true_buildEnabled _

/-- C4 witness: the truthy-exactly statement at a concrete configuration. -/
theorem C4_truthy_exactly_witness :
    ("users", true) ∈ (parse_config exCatalog exConfigPlain exArgsNone).1.get Provider.azure ↔
      ∃ v : String, dictLookup "users" (pythonDict exItemsPlain) = some v ∧ pyLower v = "true" :=
  (C4_truthy_exactly exCatalog exConfigPlain exArgsNone Provider.azure exItemsPlain
    rfl rfl rfl rfl rfl).1 "users"

/-- C5: with the dry-run flag set, `run` binds all four provider dumper names
to the one `maindumper` `DataDumper` stand-in: no real provider registry is
constructed at all, and the stand-in's units of work perform no network
access. -/
theorem C5_dry_run_standin (args : Args) (auth : AuthStore)
    (h : args.dry_run = true) :
    ∃ regs : Registries, runSetup args auth = Except.ok regs ∧
      regs.azureaddumper = regs.m365dumper ∧
      regs.azure_dumper = regs.m365dumper ∧
      regs.mdedumper = regs.m365dumper ∧
      isRealRegistry regs.m365dumper = false ∧
      ∀ op : String, unitNetworkCalls regs.m365dumper op = [] := by
  obtain ⟨a1, a2, a3, a4, dry, dbg⟩ := args
  cases dry
  · exact absurd h (by simp)
  · exact ⟨_, rfl, rfl, rfl, rfl, rfl, fun op => rfl⟩

/-- C5 witness: the dry-run substitution at a concrete input. -/
theorem C5_dry_run_standin_witness :
    ∃ regs : Registries, runSetup exArgsDry exAuthGraphOnly = Except.ok regs ∧
      regs.azureaddumper = regs.m365dumper ∧
      regs.azure_dumper = regs.m365dumper ∧
      regs.mdedumper = regs.m365dumper ∧
      isRealRegistry regs.m365dumper = false ∧
      ∀ op : String, unitNetworkCalls regs.m365dumper op = [] :=
  C5_dry_run_standin exArgsDry exAuthGraphOnly rfl

/-- C6: a stored key containing either the commercial
("graph.microsoft.com") or the government-cloud ("graph.microsoft.us")
hostname resolves the identity-graph audience, in both the delegated (`mfa`)
and the application (`app_auth`) flow, and both variants land in the same
logical slot (`msft_graph_auth` resp. `msft_graph_app_auth`). -/
theorem C6_graph_both_hostnames (mfa app : List (String × Cred)) (k : String)
    (c : Cred)
    (h : strContains k "graph.microsoft.com" = true ∨
      strContains k "graph.microsoft.us" = true) :
    routeMfa (mfa ++ [(k, c)]) = c ∧
    (routeApp (app ++ [(k, c)])).msft_graph_app_auth = c := by
  have hg : graphKeyMatch k = true := by
    unfold graphKeyMatch
    rcases h with h | h
    · rw [h]
      rfl
    · rw [h]
      exact Bool.or_true _
  constructor
  · rw [routeMfa_eq, List.foldl_append, List.foldl_cons, List.foldl_nil]
    simp [hg]
  · rw [routeApp_graph, List.foldl_append, List.foldl_cons, List.foldl_nil]
    simp [hg]

/-- C6 witness: a government-cloud key resolves the graph slots. -/
theorem C6_graph_both_hostnames_witness :
    routeMfa ([] ++ [("https://graph.microsoft.us/v1.0", exGovCred)]) = exGovCred ∧
    (routeApp ([] ++ [("https://graph.microsoft.us/v1.0", exGovCred)])).msft_graph_app_auth
      = exGovCred :=
  C6_graph_both_hostnames [] [] "https://graph.microsoft.us/v1.0" exGovCred
    (Or.inr rfl)

/-- C7: every routed credential slot holds the record of the LAST key in scan
order whose key matches that slot's audience substring — later matches
overwrite earlier ones, for both credential kinds. -/
theorem C7_last_match_wins (mfa app : List (String × Cred)) :
    (routeApp app).mgmt_app_auth
      = ((app.filter (fun kv => strContains kv.1 "management.azure.com")).getLast?).map
          Prod.snd ∧
    (routeApp app).msft_security_center_auth
      = ((app.filter (fun kv =>
            strContains kv.1 "api.securitycenter.microsoft.com")).getLast?).map
          Prod.snd ∧
    (routeApp app).msft_graph_app_auth
      = ((((app.filter (fun kv => graphKeyMatch kv.1)).getLast?).map Prod.snd).getD []) ∧
    routeMfa mfa
      = ((((mfa.filter (fun kv => graphKeyMatch kv.1)).getLast?).map Prod.snd).getD []) := by
  refine ⟨?_, ?_, ?_, ?_⟩
  · rw [routeApp_mgmt,
      foldl_overwrite (fun kv : String × Cred => strContains kv.1 "management.azure.com")
        (fun kv : String × Cred => some kv.2) app none,
      map_some_getD_none]
  · rw [routeApp_sec_center,
      foldl_overwrite
        (fun kv : String × Cred => strContains kv.1 "api.securitycenter.microsoft.com")
        (fun kv : String × Cred => some kv.2) app none,
      map_some_getD_none]
  · rw [routeApp_graph,
      foldl_overwrite (fun kv : String × Cred => graphKeyMatch kv.1)
        (fun kv : String × Cred => kv.2) app []]
  · rw [routeMfa_eq,
      foldl_overwrite (fun kv : String × Cred => graphKeyMatch kv.1)
        (fun kv : String × Cred => kv.2) mfa []]

/-- C8: when reading a provider's section raises (here: the section is
missing), the matrix build does not abort: a warning for that error is
logged, the offending section yields an empty enabled-set, and every other
section still gets its normal value. -/
theorem C8_section_error_isolated (catalog : Catalogs) (config : Config)
    (args : Args) (p : Provider) (e : String)
    (hs : configItems config (sectionName p) = Except.error e)
    (hf : overrideFlag args p = false) :
    (parse_config catalog config args).1.get p = [] ∧
    LogEvent.warning e ∈ (parse_config catalog config args).2 ∧
    ∀ q : Provider,
      (parse_config catalog config args).1.get q =
        (if overrideFlag args q
         then insertAll (buildEnabled (get_section_dict config (sectionName q)).1)
           (catalog.get q)
         else buildEnabled (get_section_dict config (sectionName q)).1) := by
  have hsec : get_section_dict config (sectionName p) = ([], [LogEvent.warning e]) := by
    unfold get_section_dict
    rw [hs]
  refine ⟨?_, ?_, ?_⟩
  · rw [parse_config_get, if_neg (by simp [hf]), hsec]
    rfl
  · rw [parse_config_logs]
    cases p <;> simp only [sectionName] at hsec <;> rw [hsec] <;> simp
  · intro q
    exact parse_config_get catalog config args q

/-- C8 witness: a configuration with no m365 section still builds, logging
the error and leaving the m365 enabled-set empty. -/
theorem C8_section_error_isolated_witness :
    (parse_config exCatalog exConfig exArgsNone).1.get Provider.m365 = [] ∧
    LogEvent.warning "No section: m365" ∈ (parse_config exCatalog exConfig exArgsNone).2 ∧
    ∀ q : Provider,
      (parse_config exCatalog exConfig exArgsNone).1.get q =
        (if overrideFlag exArgsNone q
         then insertAll (buildEnabled (get_section_dict exConfig (sectionName q)).1)
           (exCatalog.get q)
         else buildEnabled (get_section_dict exConfig (sectionName q)).1) :=
  C8_section_error_isolated exCatalog exConfig exArgsNone Provider.m365
    "No section: m365" rfl rfl

/-- C10: with the dry-run flag set, the management-plane and
endpoint-security records are never required: even when no stored
application-credential key contains "management.azure.com" or
"api.securitycenter.microsoft.com" (so both records stay absent), credential
routing and registry setup in `run` complete without error. -/
theorem C10_dry_run_no_mgmt_needed (args : Args) (auth : AuthStore)
    (h1 : args.dry_run = true)
    (h2 : ∀ kv ∈ auth.app_auth, strContains kv.1 "management.azure.com" = false)
    (h3 : ∀ kv ∈ auth.app_auth,
      strContains kv.1 "api.securitycenter.microsoft.com" = false) :
    (routeApp auth.app_auth).mgmt_app_auth = none ∧
    (routeApp auth.app_auth).msft_security_center_auth = none ∧
    ∃ regs : Registries, runSetup args auth = Except.ok regs := by
  have hfil2 : auth.app_auth.filter
      (fun kv => strContains kv.1 "management.azure.com") = [] := by
    rw [List.filter_eq_nil_iff]
    intro kv hkv
    simp [h2 kv hkv]
  have hfil3 : auth.app_auth.filter
      (fun kv => strContains kv.1 "api.securitycenter.microsoft.com") = [] := by
    rw [List.filter_eq_nil_iff]
    intro kv hkv
    simp [h3 kv hkv]
  refine ⟨?_, ?_, ?_⟩
  · rw [routeApp_mgmt,
      foldl_overwrite (fun kv : String × Cred => strContains kv.1 "management.azure.com")
        (fun kv : String × Cred => some kv.2) auth.app_auth none,
      hfil2]
    rfl
  · rw [routeApp_sec_center,
      foldl_overwrite
        (fun kv : String × Cred => strContains kv.1 "api.securitycenter.microsoft.com")
        (fun kv : String × Cred => some kv.2) auth.app_auth none,
      hfil3]
    rfl
  · obtain ⟨a1, a2, a3, a4, dry, dbg⟩ := args
    cases dry
    · exact absurd h1 (by simp)
    · exact ⟨_, rfl⟩

/-- C10 witness: dry-run with a graph-only credential store completes. -/
theorem C10_dry_run_no_mgmt_needed_witness :
    (routeApp exAuthGraphOnly.app_auth).mgmt_app_auth = none ∧
    (routeApp exAuthGraphOnly.app_auth).msft_security_center_auth = none ∧
    ∃ regs : Registries, runSetup exArgsDry exAuthGraphOnly = Except.ok regs :=
  C10_dry_run_no_mgmt_needed exArgsDry exAuthGraphOnly rfl (by decide) (by decide)

end Honk
